import Mathlib

/-!
Verification of the OmniDiff comparison/synchronization engine
(`src/scanner.rs`, with the root-existence guard from `src/app.rs`).

The embedding models filesystem paths as lists of path segments
(`Path := List String`); a directory root joined with a relative key is
`root ++ [key]`, mirroring `PathBuf::join`.  On-disk file content is a
list of bytes (`List Nat`); the blake3 hash is abstracted as the exact
byte sequence fed to the hasher (deterministic and injective, matching
the spec's collision-resistance assumption).  Per-file I/O failures are
modelled by the `partialOk` / `fullOk` flags of `FileData` and by a path
being absent from the filesystem map.  The rayon parallel stages are
embedded as order-preserving list traversals: `into_par_iter + filter_map
+ collect` on a vector is deterministic in membership, which is all the
settled claims depend on.  Hash invocations performed by the deep stage
are recorded in an explicit trace of `HashCall`s, and channel messages in
an explicit list of `ScanStatus` events (in the sequential interleaving).
-/

namespace OmniDiff

/-- A filesystem path, as a list of path segments. -/
abbrev Path := List String

/-- On-disk state of one file: its byte content, and whether the reads
performed by `calculate_partial_hash` resp. `calculate_hash` succeed
(`false` models a per-file I/O error). -/
structure FileData where
  content : List Nat
  partialOk : Bool
  fullOk : Bool
deriving Repr, DecidableEq

/-- The filesystem seen by the hashing functions: path to file, `none`
when the file does not exist / cannot be opened. -/
abbrev FS := Path → Option FileData

/-- `FileEntry` from `scanner.rs`: one file observed in one tree. -/
structure FileEntry where
  path : Path
  rel_path : String
  size : Nat
  modified : Nat
  hash : Option (List Nat)
deriving Repr, DecidableEq

/-- `ScanStatus` from `scanner.rs`: the status events streamed on the
channel. -/
inductive ScanStatus where
  | scanningSource
  | scanningDest
  | scanningBoth
  | hashing (current total : Nat)
  | syncing (current total : Nat)
  | complete
  | error (msg : String)
deriving Repr, DecidableEq

/-- Whether a status event is the `Error` variant. -/
def ScanStatus.isError : ScanStatus → Bool
  | .error _ => true
  | _ => false

/-- `CompareResult` from `scanner.rs`. -/
structure CompareResult where
  missing_in_dest : List FileEntry
  missing_in_source : List FileEntry
  different_content : List (FileEntry × FileEntry)
deriving Repr, DecidableEq

/-- The byte sequence fed to the blake3 hasher by `calculate_partial_hash`:
the head read (`file.read` fills at most 16384 bytes) and, only when the
file length exceeds 32768, the tail read after `seek(End(-16384))`. -/
def partialBytes (c : List Nat) : List Nat :=
  if c.length > 32768 then c.take 16384 ++ c.drop (c.length - 16384)
  else c.take 16384

/-- `calculate_partial_hash` from `scanner.rs`: `None` when the file
cannot be opened or a read fails, otherwise the (abstracted) hash of the
head/tail bytes. -/
def calculate_partial_hash (fs : FS) (p : Path) : Option (List Nat) :=
  match fs p with
  | none => none
  | some d => if d.partialOk then some (partialBytes d.content) else none

/-- `calculate_hash` from `scanner.rs`: full-content hash via mmap,
`None` on I/O failure.  The hash value is abstracted as the content. -/
def calculate_hash (fs : FS) (p : Path) : Option (List Nat) :=
  match fs p with
  | none => none
  | some d => if d.fullOk then some d.content else none

/-- A file as the scanner's tree walk encounters it: relative key, size,
mtime, and whether the `entry.metadata()` call succeeds. -/
structure RawFile where
  rel_path : String
  size : Nat
  modified : Nat
  metaOk : Bool
deriving Repr, DecidableEq

/-- A directory root handed to `scan_folder`: its path, whether it
exists on disk, and the regular files the walk yields under it.
`WalkDir` on a nonexistent root yields a single `Err` entry, which
`filter_map(|e| e.ok())` discards, so such a scan is empty. -/
structure Root where
  path : Path
  present : Bool
  files : List RawFile
deriving Repr, DecidableEq

/-- `scan_folder` from `scanner.rs`: the keyed snapshot (relative key ↦
entry) of every regular file whose metadata read succeeds.  Entries with
failed metadata reads are silently dropped (`metadata().ok()?`). -/
def scan_folder (r : Root) : List (String × FileEntry) :=
  if r.present then
    r.files.filterMap fun f =>
      if f.metaOk then
        some (f.rel_path,
          { path := r.path ++ [f.rel_path], rel_path := f.rel_path,
            size := f.size, modified := f.modified, hash := none })
      else none
  else []

/-- `HashMap::get` on the keyed snapshot. -/
def lookupKey (k : String) : List (String × FileEntry) → Option FileEntry
  | [] => none
  | kv :: rest => if kv.1 = k then some kv.2 else lookupKey k rest

/-- First loop of `run_comparison`: source entries whose key is absent
from the destination snapshot. -/
def missing_in_dest_list (sf df : List (String × FileEntry)) : List FileEntry :=
  sf.filterMap fun kv =>
    match lookupKey kv.1 df with
    | some _ => none
    | none => some kv.2

/-- First loop of `run_comparison`: the common (source, dest) pairs. -/
def common_list (sf df : List (String × FileEntry)) : List (FileEntry × FileEntry) :=
  sf.filterMap fun kv => (lookupKey kv.1 df).map fun d => (kv.2, d)

/-- Second loop of `run_comparison`: destination entries whose key is
absent from the source snapshot (`!contains_key`). -/
def missing_in_source_list (sf df : List (String × FileEntry)) : List FileEntry :=
  df.filterMap fun kv =>
    match lookupKey kv.1 sf with
    | some _ => none
    | none => some kv.2

/-- One hash invocation performed by the deep-check stage. -/
inductive HashCall where
  | partialH (p : Path)
  | fullH (p : Path)
deriving Repr, DecidableEq

/-- The path a hash invocation reads. -/
def HashCall.pathOf : HashCall → Path
  | .partialH p => p
  | .fullH p => p

/-- The closure of the deep hashing stage of `run_comparison`, for one
same-size candidate pair, together with the trace of hash invocations it
performs: partial hashes first (`?` short-circuits on failure), full
hashes only when the partial hashes match, entry `hash` fields filled in
only on a stage-2 mismatch. -/
def classifyDeepT (fs : FS) (src dst : FileEntry) :
    Option (FileEntry × FileEntry) × List HashCall :=
  match calculate_partial_hash fs src.path with
  | none => (none, [.partialH src.path])
  | some sp =>
    match calculate_partial_hash fs dst.path with
    | none => (none, [.partialH src.path, .partialH dst.path])
    | some dp =>
      if sp ≠ dp then
        (some (src, dst), [.partialH src.path, .partialH dst.path])
      else
        match calculate_hash fs src.path with
        | none => (none, [.partialH src.path, .partialH dst.path, .fullH src.path])
        | some sh =>
          match calculate_hash fs dst.path with
          | none =>
            (none, [.partialH src.path, .partialH dst.path, .fullH src.path, .fullH dst.path])
          | some dh =>
            if sh ≠ dh then
              (some ({ src with hash := some sh }, { dst with hash := some dh }),
               [.partialH src.path, .partialH dst.path, .fullH src.path, .fullH dst.path])
            else
              (none, [.partialH src.path, .partialH dst.path, .fullH src.path, .fullH dst.path])

/-- The size-mismatch pairs the deep branch pushes straight into
`different_content` from its filter closure (stage 0). -/
def diffBySize (common : List (FileEntry × FileEntry)) : List (FileEntry × FileEntry) :=
  common.filter fun sd => sd.1.size != sd.2.size

/-- `same_size_candidates`: the common pairs that survive stage 0. -/
def sameSizeCandidates (common : List (FileEntry × FileEntry)) : List (FileEntry × FileEntry) :=
  common.filter fun sd => sd.1.size == sd.2.size

/-- The pairs the parallel hashing stage classifies as different. -/
def hashedDiffs (fs : FS) (cands : List (FileEntry × FileEntry)) :
    List (FileEntry × FileEntry) :=
  cands.filterMap fun sd => (classifyDeepT fs sd.1 sd.2).1

/-- Every hash invocation the hashing stage performs. -/
def hashCalls (fs : FS) (cands : List (FileEntry × FileEntry)) : List HashCall :=
  cands.flatMap fun sd => (classifyDeepT fs sd.1 sd.2).2

/-- The `Hashing(current, total)` events of the hashing stage, in the
sequential interleaving: the counter reaches every value `1..total`, and
an event is sent when `c % 50 == 0 || c == total`. -/
def hashingEvents (total : Nat) : List ScanStatus :=
  (List.range total).filterMap fun i =>
    if (i + 1) % 50 == 0 || i + 1 == total then some (.hashing (i + 1) total) else none

/-- The output of one `run_comparison` call: the returned `Result`, the
status events sent on the channel, and the trace of hash invocations. -/
structure RunOutput where
  result : Except String CompareResult
  events : List ScanStatus
  calls : List HashCall
deriving Repr

/-- `run_comparison` from `scanner.rs`.  Scans both roots, partitions by
key, then classifies common pairs: in deep mode by the size / partial
hash / full hash funnel, in shallow mode by size or mtime mismatch.  The
function has no error return path: it always returns `Ok`. -/
def run_comparison (source dst : Root) (check_content : Bool) (fs : FS) : RunOutput :=
  let source_files := scan_folder source
  let dest_files := scan_folder dst
  let mid := missing_in_dest_list source_files dest_files
  let mis := missing_in_source_list source_files dest_files
  let common := common_list source_files dest_files
  if check_content then
    let cands := sameSizeCandidates common
    { result := .ok
        { missing_in_dest := mid, missing_in_source := mis,
          different_content := diffBySize common ++ hashedDiffs fs cands }
      events := [.scanningBoth] ++ hashingEvents cands.length ++ [.complete]
      calls := hashCalls fs cands }
  else
    { result := .ok
        { missing_in_dest := mid, missing_in_source := mis,
          different_content :=
            common.filter fun sd => sd.1.size != sd.2.size || sd.1.modified != sd.2.modified }
      events := [.scanningBoth, .complete]
      calls := [] }

/-- The `CompareResult` of a run (the code always returns `Ok`). -/
def resultOf (o : RunOutput) : CompareResult :=
  match o.result with
  | .ok r => r
  | .error _ => { missing_in_dest := [], missing_in_source := [], different_content := [] }

/-- Relative keys of the `missing_in_dest` collection. -/
def keysMD (r : CompareResult) : List String :=
  r.missing_in_dest.map FileEntry.rel_path

/-- Relative keys of the `missing_in_source` collection. -/
def keysMS (r : CompareResult) : List String :=
  r.missing_in_source.map FileEntry.rel_path

/-- Relative keys of the `different_content` collection (source side;
both sides of a pair share the key). -/
def keysDC (r : CompareResult) : List String :=
  r.different_content.map fun sd => sd.1.rel_path

/-- Outcome of the GUI entry point `start_comparison` in `app.rs`:
either the early return (only the local status message is set; no
thread is spawned, so no event and no result is ever produced), or the
spawned comparison run. -/
inductive StartOutcome where
  | aborted (status_msg : String)
  | spawned (out : RunOutput)

/-- `start_comparison` from `app.rs` (the part relevant to control flow):
the root-existence guard, then the spawned `run_comparison`. -/
def start_comparison (source dst : Root) (check : Bool) (fs : FS) : StartOutcome :=
  if !source.present || !dst.present then
    .aborted ("Error: Paths do not exist")
  else
    .spawned (run_comparison source dst check fs)

/-- The `Syncing(current, total)` events of `run_sync`, in the
sequential interleaving (`c % 10 == 0 || c == total`). -/
def syncingEvents (total : Nat) : List ScanStatus :=
  (List.range total).filterMap fun i =>
    if (i + 1) % 10 == 0 || i + 1 == total then some (.syncing (i + 1) total) else none

/-- The output of `run_sync`: the copy tasks `(from, to)` it builds and
executes, the delete tasks, and the status events. -/
structure SyncOutput where
  copy_tasks : List (Path × Path)
  delete_tasks : List Path
  events : List ScanStatus

/-- `run_sync` from `scanner.rs`: builds copy tasks for `missing_in_dest`
and for the source side of `different_content` (target
`dest_root.join(rel_path)`), delete tasks for `missing_in_source` only
when `delete_extra` is set, then executes them best-effort with coarse
progress events and a final `Complete`. -/
def run_sync (dest_root : Path) (results : CompareResult) (delete_extra : Bool) : SyncOutput :=
  let t1 := results.missing_in_dest.map fun e => (e.path, dest_root ++ [e.rel_path])
  let t2 := results.different_content.map fun sd => (sd.1.path, dest_root ++ [sd.1.rel_path])
  let tasks := t1 ++ t2
  let dels := if delete_extra then results.missing_in_source.map FileEntry.path else []
  { copy_tasks := tasks
    delete_tasks := dels
    events := syncingEvents (tasks.length + dels.length) ++ [.complete] }

/-! ### Helper lemmas about the keyed snapshots -/

theorem lookupKey_isSome_iff (k : String) (l : List (String × FileEntry)) :
    (lookupKey k l).isSome = true ↔ k ∈ l.map Prod.fst := by
  induction l with
  | nil => simp [lookupKey]
  | cons kv rest ih =>
    by_cases h : kv.1 = k
    · simp [lookupKey, h]
    · have h2 : k ≠ kv.1 := fun hk => h hk.symm
      simp [lookupKey, h, h2, ih]

theorem lookupKey_eq_none_iff (k : String) (l : List (String × FileEntry)) :
    lookupKey k l = none ↔ k ∉ l.map Prod.fst := by
  rw [← lookupKey_isSome_iff]
  cases h : lookupKey k l <;> simp

theorem lookupKey_mem {k : String} {l : List (String × FileEntry)} {v : FileEntry}
    (h : lookupKey k l = some v) : (k, v) ∈ l := by
  induction l with
  | nil => simp [lookupKey] at h
  | cons kv rest ih =>
    obtain ⟨a, b⟩ := kv
    by_cases h1 : a = k
    · simp only [lookupKey, h1, if_pos] at h
      injection h with h2
      subst h1; subst h2
      exact List.mem_cons_self _ _
    · simp only [lookupKey, h1, if_neg, if_false] at h
      exact List.mem_cons_of_mem _ (ih h)

theorem lookupKey_isSome_of_mem {k : String} {l : List (String × FileEntry)} {v : FileEntry}
    (h : (k, v) ∈ l) : (lookupKey k l).isSome = true :=
  (lookupKey_isSome_iff k l).mpr (List.mem_map.mpr ⟨(k, v), h, rfl⟩)

theorem lookupKey_of_mem_nodup {l : List (String × FileEntry)} {k : String} {v : FileEntry}
    (hn : (l.map Prod.fst).Nodup) (h : (k, v) ∈ l) : lookupKey k l = some v := by
  induction l with
  | nil => simp at h
  | cons kv rest ih =>
    obtain ⟨a, b⟩ := kv
    simp only [List.map_cons, List.nodup_cons] at hn
    rcases List.mem_cons.mp h with h1 | h1
    · injection h1 with hk hv
      subst hk; subst hv
      simp [lookupKey]
    · by_cases h2 : a = k
      · exact absurd (h2 ▸ List.mem_map.mpr ⟨(k, v), h1, rfl⟩) hn.1
      · simpa [lookupKey, h2] using ih hn.2 h1

theorem scan_folder_shape {r : Root} {k : String} {e : FileEntry}
    (h : (k, e) ∈ scan_folder r) :
    e.rel_path = k ∧ e.path = r.path ++ [k] ∧ e.hash = none := by
  unfold scan_folder at h
  split at h
  · rw [List.mem_filterMap] at h
    obtain ⟨f, _, hfe⟩ := h
    by_cases hm : f.metaOk
    · simp only [hm, if_pos] at hfe
      injection hfe with hfe
      injection hfe with h1 h2
      subst h2
      simp [h1]
    · simp [hm] at hfe
  · simp at h

theorem mem_missing_in_dest {sf df : List (String × FileEntry)} {e : FileEntry} :
    e ∈ missing_in_dest_list sf df ↔ ∃ k, (k, e) ∈ sf ∧ lookupKey k df = none := by
  unfold missing_in_dest_list
  rw [List.mem_filterMap]
  constructor
  · rintro ⟨⟨k0, v0⟩, hkv, hcond⟩
    cases hl : lookupKey k0 df with
    | some d0 => rw [hl] at hcond; simp at hcond
    | none =>
      rw [hl] at hcond
      injection hcond with hcond
      exact ⟨k0, hcond ▸ hkv, hl⟩
  · rintro ⟨k, hks, hkd⟩
    exact ⟨(k, e), hks, by rw [hkd]⟩

theorem mem_missing_in_source {sf df : List (String × FileEntry)} {e : FileEntry} :
    e ∈ missing_in_source_list sf df ↔ ∃ k, (k, e) ∈ df ∧ lookupKey k sf = none := by
  unfold missing_in_source_list
  rw [List.mem_filterMap]
  constructor
  · rintro ⟨⟨k0, v0⟩, hkv, hcond⟩
    cases hl : lookupKey k0 sf with
    | some d0 => rw [hl] at hcond; simp at hcond
    | none =>
      rw [hl] at hcond
      injection hcond with hcond
      exact ⟨k0, hcond ▸ hkv, hl⟩
  · rintro ⟨k, hks, hkd⟩
    exact ⟨(k, e), hks, by rw [hkd]⟩

theorem mem_common {sf df : List (String × FileEntry)} {p : FileEntry × FileEntry} :
    p ∈ common_list sf df ↔ ∃ k, (k, p.1) ∈ sf ∧ lookupKey k df = some p.2 := by
  unfold common_list
  rw [List.mem_filterMap]
  constructor
  · rintro ⟨⟨k0, v0⟩, hkv, hcond⟩
    cases hl : lookupKey k0 df with
    | none => rw [hl] at hcond; simp at hcond
    | some d0 =>
      rw [hl] at hcond
      simp only [Option.map_some] at hcond
      injection hcond with hcond
      subst hcond
      exact ⟨k0, hkv, hl⟩
  · rintro ⟨k, hks, hkd⟩
    refine ⟨(k, p.1), hks, ?_⟩
    rw [hkd]
    rfl

/-! ### Helper lemmas about the deep-check classification -/

theorem classifyDeepT_some_shape {fs : FS} {s d : FileEntry} {p : FileEntry × FileEntry}
    (h : (classifyDeepT fs s d).1 = some p) :
    p.1.rel_path = s.rel_path ∧ p.2.rel_path = d.rel_path ∧
    p.1.size = s.size ∧ p.2.size = d.size ∧
    p.1.path = s.path ∧ p.2.path = d.path := by
  cases h1 : calculate_partial_hash fs s.path with
  | none => simp [classifyDeepT, h1] at h
  | some sp =>
    cases h2 : calculate_partial_hash fs d.path with
    | none => simp [classifyDeepT, h1, h2] at h
    | some dp =>
      by_cases h3 : sp = dp
      · cases h4 : calculate_hash fs s.path with
        | none => simp [classifyDeepT, h1, h2, h3, h4] at h
        | some sh =>
          cases h5 : calculate_hash fs d.path with
          | none => simp [classifyDeepT, h1, h2, h3, h4, h5] at h
          | some dh =>
            by_cases h6 : sh = dh
            · simp [classifyDeepT, h1, h2, h3, h4, h5, h6] at h
            · simp only [classifyDeepT, h1, h2, h3, h4, h5, h6, ne_eq,
                not_false_eq_true, if_pos, not_true_eq_false, if_neg] at h
              injection h with h
              subst h
              simp
      · simp only [classifyDeepT, h1, h2, h3, ne_eq, not_false_eq_true, if_pos] at h
        injection h with h
        subst h
        simp

theorem classifyDeepT_calls_path {fs : FS} {s d : FileEntry} {c : HashCall}
    (h : c ∈ (classifyDeepT fs s d).2) :
    c.pathOf = s.path ∨ c.pathOf = d.path := by
  cases h1 : calculate_partial_hash fs s.path with
  | none => simp [classifyDeepT, h1] at h; simp [h, HashCall.pathOf]
  | some sp =>
    cases h2 : calculate_partial_hash fs d.path with
    | none =>
      simp [classifyDeepT, h1, h2] at h
      rcases h with h | h <;> simp [h, HashCall.pathOf]
    | some dp =>
      by_cases h3 : sp = dp
      · cases h4 : calculate_hash fs s.path with
        | none =>
          simp [classifyDeepT, h1, h2, h3, h4] at h
          rcases h with h | h | h <;> simp [h, HashCall.pathOf]
        | some sh =>
          cases h5 : calculate_hash fs d.path with
          | none =>
            simp [classifyDeepT, h1, h2, h3, h4, h5] at h
            rcases h with h | h | h | h <;> simp [h, HashCall.pathOf]
          | some dh =>
            by_cases h6 : sh = dh <;>
              · simp [classifyDeepT, h1, h2, h3, h4, h5, h6] at h
                rcases h with h | h | h | h <;> simp [h, HashCall.pathOf]
      · simp [classifyDeepT, h1, h2, h3] at h
        rcases h with h | h <;> simp [h, HashCall.pathOf]

theorem classifyDeepT_none_of_fail {fs : FS} {s d : FileEntry}
    (h : calculate_partial_hash fs s.path = none ∨
         calculate_partial_hash fs d.path = none ∨
         (calculate_partial_hash fs s.path = calculate_partial_hash fs d.path ∧
          (calculate_hash fs s.path = none ∨ calculate_hash fs d.path = none))) :
    (classifyDeepT fs s d).1 = none := by
  rcases h with h | h | ⟨hpp, hff⟩
  · simp [classifyDeepT, h]
  · cases h1 : calculate_partial_hash fs s.path with
    | none => simp [classifyDeepT, h1]
    | some sp => simp [classifyDeepT, h1, h]
  · cases h1 : calculate_partial_hash fs s.path with
    | none => simp [classifyDeepT, h1]
    | some sp =>
      rw [h1] at hpp
      have h2 : calculate_partial_hash fs d.path = some sp := hpp.symm
      rcases hff with hf | hf
      · simp [classifyDeepT, h1, h2, hf]
      · cases h4 : calculate_hash fs s.path with
        | none => simp [classifyDeepT, h1, h2, h4]
        | some sh => simp [classifyDeepT, h1, h2, h4, hf]

theorem classifyDeepT_none_of_content_eq {fs : FS} {s d : FileEntry} {h0 : List Nat}
    (hs : calculate_hash fs s.path = some h0) (hd : calculate_hash fs d.path = some h0) :
    (classifyDeepT fs s d).1 = none := by
  have hfs : ∃ dS, fs s.path = some dS ∧ dS.content = h0 := by
    unfold calculate_hash at hs
    cases hfs : fs s.path with
    | none => rw [hfs] at hs; simp at hs
    | some dS =>
      rw [hfs] at hs
      by_cases hok : dS.fullOk
      · simp [hok] at hs
        exact ⟨dS, rfl, hs⟩
      · simp [hok] at hs
  have hfd : ∃ dD, fs d.path = some dD ∧ dD.content = h0 := by
    unfold calculate_hash at hd
    cases hfd : fs d.path with
    | none => rw [hfd] at hd; simp at hd
    | some dD =>
      rw [hfd] at hd
      by_cases hok : dD.fullOk
      · simp [hok] at hd
        exact ⟨dD, rfl, hd⟩
      · simp [hok] at hd
  obtain ⟨dS, hfs, hcs⟩ := hfs
  obtain ⟨dD, hfd, hcd⟩ := hfd
  by_cases hp1 : dS.partialOk
  case neg => simp [classifyDeepT, calculate_partial_hash, hfs, hp1]
  by_cases hp2 : dD.partialOk
  case neg => simp [classifyDeepT, calculate_partial_hash, hfs, hfd, hp1, hp2]
  have hpb : partialBytes dS.content = partialBytes dD.content := by rw [hcs, hcd]
  simp [classifyDeepT, calculate_partial_hash, hfs, hfd, hp1, hp2, hpb, hs, hd]

/-! ### Unfolding lemmas for `run_comparison` -/

theorem resultOf_deep (source dst : Root) (fs : FS) :
    resultOf (run_comparison source dst true fs) =
      { missing_in_dest := missing_in_dest_list (scan_folder source) (scan_folder dst)
        missing_in_source := missing_in_source_list (scan_folder source) (scan_folder dst)
        different_content :=
          diffBySize (common_list (scan_folder source) (scan_folder dst)) ++
            hashedDiffs fs
              (sameSizeCandidates (common_list (scan_folder source) (scan_folder dst))) } := rfl

theorem resultOf_shallow (source dst : Root) (fs : FS) :
    resultOf (run_comparison source dst false fs) =
      { missing_in_dest := missing_in_dest_list (scan_folder source) (scan_folder dst)
        missing_in_source := missing_in_source_list (scan_folder source) (scan_folder dst)
        different_content :=
          (common_list (scan_folder source) (scan_folder dst)).filter fun sd =>
            sd.1.size != sd.2.size || sd.1.modified != sd.2.modified } := rfl

theorem resultOf_missing_fields (source dst : Root) (b : Bool) (fs : FS) :
    (resultOf (run_comparison source dst b fs)).missing_in_dest =
        missing_in_dest_list (scan_folder source) (scan_folder dst) ∧
      (resultOf (run_comparison source dst b fs)).missing_in_source =
        missing_in_source_list (scan_folder source) (scan_folder dst) := by
  cases b <;> exact ⟨rfl, rfl⟩

/-! ### Membership characterizations for the output collections -/

theorem keysMD_char {source dst : Root} {b : Bool} {fs : FS} {k : String} :
    k ∈ keysMD (resultOf (run_comparison source dst b fs)) ↔
      ∃ e, (k, e) ∈ scan_folder source ∧ lookupKey k (scan_folder dst) = none := by
  rw [keysMD, (resultOf_missing_fields source dst b fs).1, List.mem_map]
  constructor
  · rintro ⟨e, he, hek⟩
    obtain ⟨k0, hk0, hl⟩ := mem_missing_in_dest.mp he
    have hshape := scan_folder_shape hk0
    have hkk : k0 = k := by rw [← hshape.1, hek]
    subst hkk
    exact ⟨e, hk0, hl⟩
  · rintro ⟨e, hke, hl⟩
    exact ⟨e, mem_missing_in_dest.mpr ⟨k, hke, hl⟩, (scan_folder_shape hke).1⟩

theorem keysMS_char {source dst : Root} {b : Bool} {fs : FS} {k : String} :
    k ∈ keysMS (resultOf (run_comparison source dst b fs)) ↔
      ∃ e, (k, e) ∈ scan_folder dst ∧ lookupKey k (scan_folder source) = none := by
  rw [keysMS, (resultOf_missing_fields source dst b fs).2, List.mem_map]
  constructor
  · rintro ⟨e, he, hek⟩
    obtain ⟨k0, hk0, hl⟩ := mem_missing_in_source.mp he
    have hshape := scan_folder_shape hk0
    have hkk : k0 = k := by rw [← hshape.1, hek]
    subst hkk
    exact ⟨e, hk0, hl⟩
  · rintro ⟨e, hke, hl⟩
    exact ⟨e, mem_missing_in_source.mpr ⟨k, hke, hl⟩, (scan_folder_shape hke).1⟩

/-- Every `different_content` pair of any run originates from a common
pair of the two snapshots sharing its relative key, and the lemma
records through which branch of the funnel it was classified. -/
theorem mem_DC_common {source dst : Root} {b : Bool} {fs : FS} {p : FileEntry × FileEntry}
    (h : p ∈ (resultOf (run_comparison source dst b fs)).different_content) :
    ∃ s0 d0, (p.1.rel_path, s0) ∈ scan_folder source ∧
      lookupKey p.1.rel_path (scan_folder dst) = some d0 ∧
      ((s0.size ≠ d0.size ∧ p = (s0, d0)) ∨
       (b = true ∧ s0.size = d0.size ∧ (classifyDeepT fs s0 d0).1 = some p) ∨
       (b = false ∧ p = (s0, d0) ∧ (s0.size ≠ d0.size ∨ s0.modified ≠ d0.modified))) := by
  cases b with
  | true =>
    rw [resultOf_deep] at h
    rcases List.mem_append.mp h with h | h
    · rw [diffBySize, List.mem_filter] at h
      obtain ⟨hc, hs⟩ := h
      obtain ⟨k0, hk0, hl⟩ := mem_common.mp hc
      have hk : k0 = p.1.rel_path := ((scan_folder_shape hk0).1).symm
      subst hk
      exact ⟨p.1, p.2, hk0, hl, Or.inl ⟨by simpa using hs, rfl⟩⟩
    · rw [hashedDiffs, List.mem_filterMap] at h
      obtain ⟨sd, hsd, hson⟩ := h
      rw [sameSizeCandidates, List.mem_filter] at hsd
      obtain ⟨hc, hsz⟩ := hsd
      have shape := classifyDeepT_some_shape hson
      obtain ⟨k0, hk0, hl⟩ := mem_common.mp hc
      have hk : k0 = p.1.rel_path := by
        rw [shape.1, (scan_folder_shape hk0).1]
      subst hk
      exact ⟨sd.1, sd.2, hk0, hl, Or.inr (Or.inl ⟨rfl, by simpa using hsz, hson⟩)⟩
  | false =>
    rw [resultOf_shallow] at h
    rw [List.mem_filter] at h
    obtain ⟨hc, hcond⟩ := h
    obtain ⟨k0, hk0, hl⟩ := mem_common.mp hc
    have hk : k0 = p.1.rel_path := ((scan_folder_shape hk0).1).symm
    subst hk
    refine ⟨p.1, p.2, hk0, hl, Or.inr (Or.inr ⟨rfl, rfl, ?_⟩)⟩
    simpa using hcond

/-- A common pair of differing sizes is in `different_content`, in both
modes (deep: pushed by the stage-0 filter closure; shallow: the size
disjunct of the filter). -/
theorem mem_DC_of_size {source dst : Root} {fs : FS} {k : String} {s d : FileEntry}
    (b : Bool) (hs : (k, s) ∈ scan_folder source)
    (hd : lookupKey k (scan_folder dst) = some d) (hsz : s.size ≠ d.size) :
    (s, d) ∈ (resultOf (run_comparison source dst b fs)).different_content := by
  have hc : (s, d) ∈ common_list (scan_folder source) (scan_folder dst) :=
    mem_common.mpr ⟨k, hs, hd⟩
  cases b with
  | true =>
    rw [resultOf_deep]
    exact List.mem_append.mpr (Or.inl (List.mem_filter.mpr ⟨hc, by simpa using hsz⟩))
  | false =>
    rw [resultOf_shallow]
    exact List.mem_filter.mpr ⟨hc, by simp [hsz]⟩

theorem keysDC_both {source dst : Root} {b : Bool} {fs : FS} {k : String}
    (h : k ∈ keysDC (resultOf (run_comparison source dst b fs))) :
    (lookupKey k (scan_folder source)).isSome = true ∧
      (lookupKey k (scan_folder dst)).isSome = true := by
  rw [keysDC, List.mem_map] at h
  obtain ⟨p, hp, hpk⟩ := h
  obtain ⟨s0, d0, hs0, hd0, _⟩ := mem_DC_common hp
  rw [hpk] at hs0 hd0
  exact ⟨lookupKey_isSome_of_mem hs0, by rw [hd0]; rfl⟩

/-! ### Witness fixtures: tiny concrete roots and filesystems -/

/-- A filesystem with no readable files. -/
def fsW : FS := fun _ => none

/-- Concrete source root holding the single key held by `kW`. -/
def srcW : Root :=
  { path := [], present := true,
    files := [{ rel_path := "a", size := 1, modified := 2, metaOk := true }] }

/-- Concrete destination root holding one unrelated key. -/
def dstW : Root :=
  { path := ["d"], present := true,
    files := [{ rel_path := "b", size := 1, modified := 2, metaOk := true }] }

/-- The source-only key of the witness roots. -/
def kW : String := "a"

/-! ### Claims -/

/-- C1: For every pair of scanned snapshots, the `CompareResult` returned
by `run_comparison` partitions relative keys disjointly: a given relative
key appears in at most one of `missing_in_dest`, `missing_in_source`,
`different_content` (or in none); and every key present in exactly one
tree appears in exactly the corresponding missing collection (source-only
keys in `missing_in_dest`, destination-only keys in `missing_in_source`)
and never in `different_content`.  Holds in both deep and shallow mode. -/
theorem run_comparison_partitions_keys
    (source dst : Root) (b : Bool) (fs : FS) (k : String) :
    ((k ∈ keysMD (resultOf (run_comparison source dst b fs)) →
        k ∉ keysMS (resultOf (run_comparison source dst b fs)) ∧
          k ∉ keysDC (resultOf (run_comparison source dst b fs))) ∧
      (k ∈ keysMS (resultOf (run_comparison source dst b fs)) →
        k ∉ keysMD (resultOf (run_comparison source dst b fs)) ∧
          k ∉ keysDC (resultOf (run_comparison source dst b fs))) ∧
      (k ∈ keysDC (resultOf (run_comparison source dst b fs)) →
        k ∉ keysMD (resultOf (run_comparison source dst b fs)) ∧
          k ∉ keysMS (resultOf (run_comparison source dst b fs)))) ∧
    (k ∈ (scan_folder source).map Prod.fst ∧ k ∉ (scan_folder dst).map Prod.fst →
      k ∈ keysMD (resultOf (run_comparison source dst b fs)) ∧
        k ∉ keysMS (resultOf (run_comparison source dst b fs)) ∧
        k ∉ keysDC (resultOf (run_comparison source dst b fs))) ∧
    (k ∉ (scan_folder source).map Prod.fst ∧ k ∈ (scan_folder dst).map Prod.fst →
      k ∈ keysMS (resultOf (run_comparison source dst b fs)) ∧
        k ∉ keysMD (resultOf (run_comparison source dst b fs)) ∧
        k ∉ keysDC (resultOf (run_comparison source dst b fs))) := by
  have hMD := @keysMD_char source dst b fs k
  have hMS := @keysMS_char source dst b fs k
  refine ⟨⟨?_, ?_, ?_⟩, ?_, ?_⟩
  · intro h
    obtain ⟨e, he, hl⟩ := hMD.mp h
    constructor
    · intro h2
      obtain ⟨e2, he2, hl2⟩ := hMS.mp h2
      have hsome := lookupKey_isSome_of_mem he
      rw [hl2] at hsome
      simp at hsome
    · intro h2
      have hb := keysDC_both h2
      rw [hl] at hb
      simp at hb
  · intro h
    obtain ⟨e, he, hl⟩ := hMS.mp h
    constructor
    · intro h2
      obtain ⟨e2, he2, hl2⟩ := hMD.mp h2
      have hsome := lookupKey_isSome_of_mem he2
      rw [hl] at hsome
      simp at hsome
    · intro h2
      have hb := keysDC_both h2
      rw [hl] at hb
      simp at hb
  · intro h
    have hb := keysDC_both h
    constructor
    · intro h2
      obtain ⟨e2, he2, hl2⟩ := hMD.mp h2
      rw [hl2] at hb
      simp at hb
    · intro h2
      obtain ⟨e2, he2, hl2⟩ := hMS.mp h2
      rw [hl2] at hb
      simp at hb
  · rintro ⟨h1, h2⟩
    obtain ⟨⟨k2, e⟩, hke, hkeq⟩ := List.mem_map.mp h1
    have hln : lookupKey k (scan_folder dst) = none := (lookupKey_eq_none_iff k _).mpr h2
    have hkk : k2 = k := hkeq
    rw [hkk] at hke
    refine ⟨hMD.mpr ⟨e, hke, hln⟩, ?_, ?_⟩
    · intro h3
      obtain ⟨e2, he2, hl2⟩ := hMS.mp h3
      exact h2 (List.mem_map.mpr ⟨(k, e2), he2, rfl⟩)
    · intro h3
      have hb := keysDC_both h3
      rw [hln] at hb
      simp at hb
  · rintro ⟨h1, h2⟩
    obtain ⟨⟨k2, e⟩, hke, hkeq⟩ := List.mem_map.mp h2
    have hln : lookupKey k (scan_folder source) = none := (lookupKey_eq_none_iff k _).mpr h1
    have hkk : k2 = k := hkeq
    rw [hkk] at hke
    refine ⟨hMS.mpr ⟨e, hke, hln⟩, ?_, ?_⟩
    · intro h3
      obtain ⟨e2, he2, hl2⟩ := hMD.mp h3
      exact h1 (List.mem_map.mpr ⟨(k, e2), he2, rfl⟩)
    · intro h3
      have hb := keysDC_both h3
      rw [hln] at hb
      simp at hb

/-- Witness for C1: on the concrete roots, applying the theorem to the
source-only key `kW` puts it in `missing_in_dest`. -/
theorem run_comparison_partitions_keys_witness :
    (kW ∈ (scan_folder srcW).map Prod.fst ∧ kW ∉ (scan_folder dstW).map Prod.fst) ∧
      kW ∈ keysMD (resultOf (run_comparison srcW dstW true fsW)) :=
  ⟨by decide, ((run_comparison_partitions_keys srcW dstW true fsW kW).2.1 (by decide)).1⟩

theorem snoc_inj {xs ys : Path} {a b : String} (h : xs ++ [a] = ys ++ [b]) :
    xs = ys ∧ a = b := by
  have h2 := List.append_inj' h (by simp)
  refine ⟨h2.1, ?_⟩
  have h3 := h2.2
  injection h3 with h4 _

theorem run_comparison_calls_shallow (source dst : Root) (fs : FS) :
    (run_comparison source dst false fs).calls = [] := rfl

theorem run_comparison_calls_deep (source dst : Root) (fs : FS) :
    (run_comparison source dst true fs).calls =
      hashCalls fs (sameSizeCandidates (common_list (scan_folder source) (scan_folder dst))) :=
  rfl

theorem hashCalls_path {fs : FS} {cands : List (FileEntry × FileEntry)} {c : HashCall}
    (h : c ∈ hashCalls fs cands) :
    ∃ sd, sd ∈ cands ∧ (c.pathOf = sd.1.path ∨ c.pathOf = sd.2.path) := by
  rw [hashCalls, List.mem_flatMap] at h
  obtain ⟨sd, hsd, hc⟩ := h
  exact ⟨sd, hsd, classifyDeepT_calls_path hc⟩

/-- Concrete source root for the cross-tree witnesses: shares key `c`
with `dstW2` at a different size. -/
def srcW2 : Root :=
  { path := ["s2"], present := true,
    files := [{ rel_path := "c", size := 1, modified := 0, metaOk := true }] }

/-- Concrete destination root for the cross-tree witnesses. -/
def dstW2 : Root :=
  { path := ["d2"], present := true,
    files := [{ rel_path := "c", size := 2, modified := 0, metaOk := true }] }

/-- The source entry `srcW2` scans to. -/
def seW2 : FileEntry :=
  { path := ["s2", "c"], rel_path := "c", size := 1, modified := 0, hash := none }

/-- The destination entry `dstW2` scans to. -/
def deW2 : FileEntry :=
  { path := ["d2", "c"], rel_path := "c", size := 2, modified := 0, hash := none }

/-- C2: for every relative key present in both snapshots whose two
entries have differing size, the pair appears in `different_content`,
and no hash computation — partial or full — is performed on either of
the pair's files, in both deep and shallow mode.  (Shallow mode performs
no hashing at all; in deep mode the filter closure diverts the pair
before the hashing stage, whose trace only ever touches same-size
candidates.) -/
theorem size_mismatch_different_no_hash
    (source dst : Root) (b : Bool) (fs : FS) (k : String) (se de : FileEntry)
    (hroot : source.path ≠ dst.path)
    (hnds : ((scan_folder source).map Prod.fst).Nodup)
    (hse : (k, se) ∈ scan_folder source)
    (hde : lookupKey k (scan_folder dst) = some de)
    (hsz : se.size ≠ de.size) :
    (se, de) ∈ (resultOf (run_comparison source dst b fs)).different_content ∧
      ∀ c ∈ (run_comparison source dst b fs).calls,
        HashCall.pathOf c ≠ se.path ∧ HashCall.pathOf c ≠ de.path := by
  refine ⟨mem_DC_of_size b hse hde hsz, ?_⟩
  cases b with
  | false =>
    intro c hc
    rw [run_comparison_calls_shallow] at hc
    simp at hc
  | true =>
    intro c hc
    rw [run_comparison_calls_deep] at hc
    obtain ⟨sd, hsd, hpath⟩ := hashCalls_path hc
    rw [sameSizeCandidates, List.mem_filter] at hsd
    obtain ⟨hcm, hszeq⟩ := hsd
    obtain ⟨k0, hk0, hl0⟩ := mem_common.mp hcm
    have hs1 : sd.1.path = source.path ++ [k0] := (scan_folder_shape hk0).2.1
    have hd0 : (k0, sd.2) ∈ scan_folder dst := lookupKey_mem hl0
    have hs2 : sd.2.path = dst.path ++ [k0] := (scan_folder_shape hd0).2.1
    have hsep : se.path = source.path ++ [k] := (scan_folder_shape hse).2.1
    have hdep : de.path = dst.path ++ [k] := (scan_folder_shape (lookupKey_mem hde)).2.1
    have hszeq2 : sd.1.size = sd.2.size := by simpa using hszeq
    have hkey : ¬k0 = k := by
      intro hkk
      subst hkk
      have h1 : lookupKey k0 (scan_folder source) = some sd.1 := lookupKey_of_mem_nodup hnds hk0
      have h2 : lookupKey k0 (scan_folder source) = some se := lookupKey_of_mem_nodup hnds hse
      rw [h1] at h2
      injection h2 with h2
      rw [hl0] at hde
      injection hde with hde
      rw [h2, hde] at hszeq2
      exact hsz hszeq2
    constructor
    · intro hps
      rcases hpath with hp | hp
      · rw [hp, hs1, hsep] at hps
        exact hkey (snoc_inj hps).2
      · rw [hp, hs2, hsep] at hps
        exact hroot (snoc_inj hps).1.symm
    · intro hpd
      rcases hpath with hp | hp
      · rw [hp, hs1, hdep] at hpd
        exact hroot (snoc_inj hpd).1
      · rw [hp, hs2, hdep] at hpd
        exact hkey (snoc_inj hpd).2

/-- The key shared by `srcW2` and `dstW2`. -/
def kW2 : String := "c"

/-- Witness for C2, on concrete roots sharing key `c` at sizes 1 and 2. -/
theorem size_mismatch_different_no_hash_witness :
    (srcW2.path ≠ dstW2.path ∧ ((scan_folder srcW2).map Prod.fst).Nodup ∧
        (kW2, seW2) ∈ scan_folder srcW2 ∧
        lookupKey kW2 (scan_folder dstW2) = some deW2 ∧ seW2.size ≠ deW2.size) ∧
      (seW2, deW2) ∈ (resultOf (run_comparison srcW2 dstW2 true fsW)).different_content :=
  ⟨by decide,
   (size_mismatch_different_no_hash srcW2 dstW2 true fsW kW2 seW2 deW2
      (by decide) (by decide) (by decide) (by decide) (by decide)).1⟩

/-- Identification of the unique `different_content` pair carrying a
given key: under a duplicate-free source snapshot, any pair whose source
side has relative key `k` must be exactly `(se, de)` where `se` is the
source entry of `k` and `de` the looked-up destination entry. -/
theorem mem_DC_common_unique {source dst : Root} {b : Bool} {fs : FS} {k : String}
    {se de : FileEntry} {p : FileEntry × FileEntry}
    (hnds : ((scan_folder source).map Prod.fst).Nodup)
    (hse : (k, se) ∈ scan_folder source)
    (hde : lookupKey k (scan_folder dst) = some de)
    (hp : p ∈ (resultOf (run_comparison source dst b fs)).different_content)
    (hpk : p.1.rel_path = k) :
    (se.size ≠ de.size ∧ p = (se, de)) ∨
      (b = true ∧ se.size = de.size ∧ (classifyDeepT fs se de).1 = some p) ∨
      (b = false ∧ p = (se, de) ∧ (se.size ≠ de.size ∨ se.modified ≠ de.modified)) := by
  obtain ⟨s0, d0, hs0, hd0, hbr⟩ := mem_DC_common hp
  rw [hpk] at hs0 hd0
  have h1 : lookupKey k (scan_folder source) = some s0 := lookupKey_of_mem_nodup hnds hs0
  have h2 : lookupKey k (scan_folder source) = some se := lookupKey_of_mem_nodup hnds hse
  rw [h1] at h2
  injection h2 with h2
  rw [hde] at hd0
  injection hd0 with hd0
  rw [← h2, hd0]
  exact hbr

/-- C3: in deep mode, a key present in both snapshots whose entries have
identical size and identical full-content hash appears in no output
collection at all — in particular never in `different_content`. -/
theorem deep_equal_hash_not_different
    (source dst : Root) (fs : FS) (k : String) (se de : FileEntry) (h0 : List Nat)
    (hnds : ((scan_folder source).map Prod.fst).Nodup)
    (hse : (k, se) ∈ scan_folder source)
    (hde : lookupKey k (scan_folder dst) = some de)
    (hsz : se.size = de.size)
    (hhs : calculate_hash fs se.path = some h0)
    (hhd : calculate_hash fs de.path = some h0) :
    k ∉ keysMD (resultOf (run_comparison source dst true fs)) ∧
      k ∉ keysMS (resultOf (run_comparison source dst true fs)) ∧
      k ∉ keysDC (resultOf (run_comparison source dst true fs)) := by
  refine ⟨?_, ?_, ?_⟩
  · intro h
    obtain ⟨e, he, hl⟩ := keysMD_char.mp h
    rw [hde] at hl
    cases hl
  · intro h
    obtain ⟨e, he, hl⟩ := keysMS_char.mp h
    have hsome := lookupKey_isSome_of_mem hse
    rw [hl] at hsome
    cases hsome
  · intro h
    rw [keysDC, List.mem_map] at h
    obtain ⟨p, hp, hpk⟩ := h
    rcases mem_DC_common_unique hnds hse hde hp hpk with ⟨hne, _⟩ | ⟨_, _, hcl⟩ | ⟨hb, _, _⟩
    · exact hne hsz
    · have hnone := classifyDeepT_none_of_content_eq hhs hhd
      rw [hcl] at hnone
      cases hnone
    · cases hb

/-- Concrete roots sharing key `e` at equal size for the C3 witness. -/
def srcW3 : Root :=
  { path := ["s3"], present := true,
    files := [{ rel_path := "e", size := 3, modified := 7, metaOk := true }] }

/-- Destination counterpart of `srcW3`. -/
def dstW3 : Root :=
  { path := ["d3"], present := true,
    files := [{ rel_path := "e", size := 3, modified := 9, metaOk := true }] }

/-- The shared key of `srcW3` / `dstW3`. -/
def kW3 : String := "e"

/-- The scanned source entry of `srcW3`. -/
def seW3 : FileEntry :=
  { path := ["s3", "e"], rel_path := "e", size := 3, modified := 7, hash := none }

/-- The scanned destination entry of `dstW3`. -/
def deW3 : FileEntry :=
  { path := ["d3", "e"], rel_path := "e", size := 3, modified := 9, hash := none }

/-- A filesystem on which both witness files are readable with the same
content. -/
def fsW3 : FS := fun p =>
  if p = ["s3", "e"] ∨ p = ["d3", "e"] then
    some { content := [1, 2, 3], partialOk := true, fullOk := true }
  else none

/-- Witness for C3 on the concrete equal-content pair. -/
theorem deep_equal_hash_not_different_witness :
    (((scan_folder srcW3).map Prod.fst).Nodup ∧
        (kW3, seW3) ∈ scan_folder srcW3 ∧
        lookupKey kW3 (scan_folder dstW3) = some deW3 ∧
        seW3.size = deW3.size ∧
        calculate_hash fsW3 seW3.path = some [1, 2, 3] ∧
        calculate_hash fsW3 deW3.path = some [1, 2, 3]) ∧
      kW3 ∉ keysDC (resultOf (run_comparison srcW3 dstW3 true fsW3)) :=
  ⟨by decide,
   (deep_equal_hash_not_different srcW3 dstW3 fsW3 kW3 seW3 deW3 [1, 2, 3]
      (by decide) (by decide) (by decide) (by decide) (by decide) (by decide)).2.2⟩

theorem mem_hashingEvents {n : Nat} {e : ScanStatus} (h : e ∈ hashingEvents n) :
    ∃ c, e = .hashing c n := by
  rw [hashingEvents, List.mem_filterMap] at h
  obtain ⟨i, _, hi⟩ := h
  by_cases hc : ((i + 1) % 50 == 0 || i + 1 == n) = true
  · rw [if_pos hc] at hi
    injection hi with hi
    exact ⟨i + 1, hi.symm⟩
  · rw [if_neg hc] at hi
    cases hi

/-- `run_comparison` never sends an `Error` event: the only events are
`ScanningBoth`, `Hashing(_, _)` and `Complete`. -/
theorem run_comparison_no_error_event (source dst : Root) (b : Bool) (fs : FS) :
    ∀ e ∈ (run_comparison source dst b fs).events, e.isError = false := by
  intro e he
  cases b with
  | true =>
    have hev : (run_comparison source dst true fs).events =
        [ScanStatus.scanningBoth] ++
          hashingEvents
            (sameSizeCandidates (common_list (scan_folder source) (scan_folder dst))).length ++
          [ScanStatus.complete] := rfl
    rw [hev] at he
    rcases List.mem_append.mp he with he | he
    · rcases List.mem_append.mp he with he | he
      · simp at he
        rw [he]
        rfl
      · obtain ⟨c, hc⟩ := mem_hashingEvents he
        rw [hc]
        rfl
    · simp at he
      rw [he]
      rfl
  | false =>
    have hev : (run_comparison source dst false fs).events =
        [ScanStatus.scanningBoth, ScanStatus.complete] := rfl
    rw [hev] at he
    simp at he
    rcases he with he | he <;> (rw [he]; rfl)

/-- `run_comparison` has no error return path: the `Result` is always
`Ok` of the compare result. -/
theorem run_comparison_result_ok (source dst : Root) (b : Bool) (fs : FS) :
    (run_comparison source dst b fs).result =
      Except.ok (resultOf (run_comparison source dst b fs)) := by
  cases b <;> rfl

/-- C5: in deep mode, a same-size candidate pair for which a performed
partial or full hash computation fails on either side is dropped
silently: its key reaches no output collection, the run still returns
`Ok`, and no error event is sent.  (A full-hash failure can only occur —
and only matters — when the partial hashes matched, hence the equality
guard in the third disjunct.) -/
theorem hash_failure_drops_pair
    (source dst : Root) (fs : FS) (k : String) (se de : FileEntry)
    (hnds : ((scan_folder source).map Prod.fst).Nodup)
    (hse : (k, se) ∈ scan_folder source)
    (hde : lookupKey k (scan_folder dst) = some de)
    (hsz : se.size = de.size)
    (hfail : calculate_partial_hash fs se.path = none ∨
             calculate_partial_hash fs de.path = none ∨
             (calculate_partial_hash fs se.path = calculate_partial_hash fs de.path ∧
              (calculate_hash fs se.path = none ∨ calculate_hash fs de.path = none))) :
    (k ∉ keysMD (resultOf (run_comparison source dst true fs)) ∧
        k ∉ keysMS (resultOf (run_comparison source dst true fs)) ∧
        k ∉ keysDC (resultOf (run_comparison source dst true fs))) ∧
      (run_comparison source dst true fs).result =
        Except.ok (resultOf (run_comparison source dst true fs)) ∧
      (∀ e ∈ (run_comparison source dst true fs).events, e.isError = false) := by
  refine ⟨⟨?_, ?_, ?_⟩, run_comparison_result_ok source dst true fs,
    run_comparison_no_error_event source dst true fs⟩
  · intro h
    obtain ⟨e, he, hl⟩ := keysMD_char.mp h
    rw [hde] at hl
    cases hl
  · intro h
    obtain ⟨e, he, hl⟩ := keysMS_char.mp h
    have hsome := lookupKey_isSome_of_mem hse
    rw [hl] at hsome
    cases hsome
  · intro h
    rw [keysDC, List.mem_map] at h
    obtain ⟨p, hp, hpk⟩ := h
    rcases mem_DC_common_unique hnds hse hde hp hpk with ⟨hne, _⟩ | ⟨_, _, hcl⟩ | ⟨hb, _, _⟩
    · exact hne hsz
    · have hnone := classifyDeepT_none_of_fail hfail
      rw [hcl] at hnone
      cases hnone
    · cases hb

/-- Concrete roots sharing key `g` at equal size for the C5 witness. -/
def srcW5 : Root :=
  { path := ["s5"], present := true,
    files := [{ rel_path := "g", size := 4, modified := 0, metaOk := true }] }

/-- Destination counterpart of `srcW5`. -/
def dstW5 : Root :=
  { path := ["d5"], present := true,
    files := [{ rel_path := "g", size := 4, modified := 1, metaOk := true }] }

/-- The shared key of `srcW5` / `dstW5`. -/
def kW5 : String := "g"

/-- The scanned source entry of `srcW5`. -/
def seW5 : FileEntry :=
  { path := ["s5", "g"], rel_path := "g", size := 4, modified := 0, hash := none }

/-- The scanned destination entry of `dstW5`. -/
def deW5 : FileEntry :=
  { path := ["d5", "g"], rel_path := "g", size := 4, modified := 1, hash := none }

/-- Witness for C5: on the all-unreadable filesystem `fsW`, the partial
hash of the source side fails, so the shared key reaches no collection. -/
theorem hash_failure_drops_pair_witness :
    (((scan_folder srcW5).map Prod.fst).Nodup ∧
        (kW5, seW5) ∈ scan_folder srcW5 ∧
        lookupKey kW5 (scan_folder dstW5) = some deW5 ∧
        seW5.size = deW5.size ∧ calculate_partial_hash fsW seW5.path = none) ∧
      kW5 ∉ keysDC (resultOf (run_comparison srcW5 dstW5 true fsW)) :=
  ⟨by decide,
   ((hash_failure_drops_pair srcW5 dstW5 fsW kW5 seW5 deW5
      (by decide) (by decide) (by decide) (by decide) (Or.inl (by decide))).1).2.2⟩

theorem mem_DC_shallow_intro {source dst : Root} {fs : FS} {k : String} {s d : FileEntry}
    (hs : (k, s) ∈ scan_folder source) (hd : lookupKey k (scan_folder dst) = some d)
    (hcond : s.size ≠ d.size ∨ s.modified ≠ d.modified) :
    (s, d) ∈ (resultOf (run_comparison source dst false fs)).different_content := by
  rw [resultOf_shallow]
  refine List.mem_filter.mpr ⟨mem_common.mpr ⟨k, hs, hd⟩, ?_⟩
  rcases hcond with h | h <;> simp [h]

/-- C7: with `deepCheck` off, a candidate pair of equal size is
classified different exactly when its `modified` timestamps differ; a
same-size same-mtime pair appears in no output collection; and the
shallow branch performs no hash computation at all (empty call trace,
so no content is read). -/
theorem shallow_same_size_mtime_only
    (source dst : Root) (fs : FS) (k : String) (se de : FileEntry)
    (hnds : ((scan_folder source).map Prod.fst).Nodup)
    (hse : (k, se) ∈ scan_folder source)
    (hde : lookupKey k (scan_folder dst) = some de)
    (hsz : se.size = de.size) :
    (k ∈ keysDC (resultOf (run_comparison source dst false fs)) ↔
        se.modified ≠ de.modified) ∧
      (se.modified = de.modified →
        k ∉ keysMD (resultOf (run_comparison source dst false fs)) ∧
          k ∉ keysMS (resultOf (run_comparison source dst false fs)) ∧
          k ∉ keysDC (resultOf (run_comparison source dst false fs))) ∧
      (run_comparison source dst false fs).calls = [] := by
  have hiff : k ∈ keysDC (resultOf (run_comparison source dst false fs)) ↔
      se.modified ≠ de.modified := by
    constructor
    · intro h
      rw [keysDC, List.mem_map] at h
      obtain ⟨p, hp, hpk⟩ := h
      rcases mem_DC_common_unique hnds hse hde hp hpk with ⟨hne, _⟩ | ⟨hb, _, _⟩ | ⟨_, _, hor⟩
      · exact absurd hsz hne
      · cases hb
      · rcases hor with hor | hor
        · exact absurd hsz hor
        · exact hor
    · intro h
      rw [keysDC, List.mem_map]
      exact ⟨(se, de), mem_DC_shallow_intro hse hde (Or.inr h), (scan_folder_shape hse).1⟩
  refine ⟨hiff, ?_, run_comparison_calls_shallow source dst fs⟩
  intro hmod
  refine ⟨?_, ?_, fun h => (hiff.mp h) hmod⟩
  · intro h
    obtain ⟨e, he, hl⟩ := keysMD_char.mp h
    rw [hde] at hl
    cases hl
  · intro h
    obtain ⟨e, he, hl⟩ := keysMS_char.mp h
    have hsome := lookupKey_isSome_of_mem hse
    rw [hl] at hsome
    cases hsome

/-- Concrete roots sharing key `m` at equal size but different mtimes,
for the C7 witness. -/
def srcW7 : Root :=
  { path := ["s7"], present := true,
    files := [{ rel_path := "m", size := 2, modified := 1, metaOk := true }] }

/-- Destination counterpart of `srcW7`. -/
def dstW7 : Root :=
  { path := ["d7"], present := true,
    files := [{ rel_path := "m", size := 2, modified := 2, metaOk := true }] }

/-- The shared key of `srcW7` / `dstW7`. -/
def kW7 : String := "m"

/-- The scanned source entry of `srcW7`. -/
def seW7 : FileEntry :=
  { path := ["s7", "m"], rel_path := "m", size := 2, modified := 1, hash := none }

/-- The scanned destination entry of `dstW7`. -/
def deW7 : FileEntry :=
  { path := ["d7", "m"], rel_path := "m", size := 2, modified := 2, hash := none }

/-- Witness for C7: the same-size pair with differing mtimes lands in
`different_content` of the shallow run. -/
theorem shallow_same_size_mtime_only_witness :
    (((scan_folder srcW7).map Prod.fst).Nodup ∧
        (kW7, seW7) ∈ scan_folder srcW7 ∧
        lookupKey kW7 (scan_folder dstW7) = some deW7 ∧
        seW7.size = deW7.size ∧ seW7.modified ≠ deW7.modified) ∧
      kW7 ∈ keysDC (resultOf (run_comparison srcW7 dstW7 false fsW)) :=
  ⟨by decide,
   ((shallow_same_size_mtime_only srcW7 dstW7 fsW kW7 seW7 deW7
      (by decide) (by decide) (by decide) (by decide)).1).mpr (by decide)⟩

theorem missing_in_source_list_nil (df : List (String × FileEntry)) :
    missing_in_source_list [] df = df.map Prod.snd := by
  induction df with
  | nil => rfl
  | cons kv rest ih =>
    rw [missing_in_source_list] at ih ⊢
    rw [List.filterMap_cons]
    have h0 : (match lookupKey kv.1 ([] : List (String × FileEntry)) with
        | some _ => none
        | none => some kv.2) = some kv.2 := rfl
    rw [h0, ih, List.map_cons]

/-- A nonexistent root for the C10 / C4 witnesses; its `files` field is
irrelevant because the walk yields only an `Err` entry. -/
def srcW10 : Root :=
  { path := ["nx"], present := false,
    files := [{ rel_path := "z", size := 1, modified := 1, metaOk := true }] }

/-- C10: scanning a root that does not exist (or cannot be read at all)
returns an empty mapping rather than an error, so `run_comparison` with
a nonexistent source root succeeds, listing every destination file in
`missing_in_source` while `missing_in_dest` and `different_content` are
empty. -/
theorem missing_root_scans_empty
    (source dst : Root) (b : Bool) (fs : FS) (h : source.present = false) :
    scan_folder source = [] ∧
      (run_comparison source dst b fs).result =
        Except.ok
          { missing_in_dest := []
            missing_in_source := (scan_folder dst).map Prod.snd
            different_content := [] } := by
  have hs : scan_folder source = [] := by simp [scan_folder, h]
  refine ⟨hs, ?_⟩
  rw [run_comparison_result_ok]
  cases b with
  | true =>
    rw [resultOf_deep, hs]
    simp [missing_in_dest_list, common_list, diffBySize, sameSizeCandidates, hashedDiffs,
      missing_in_source_list_nil]
  | false =>
    rw [resultOf_shallow, hs]
    simp [missing_in_dest_list, common_list, missing_in_source_list_nil]

/-- Witness for C10 on the concrete nonexistent root. -/
theorem missing_root_scans_empty_witness :
    srcW10.present = false ∧ scan_folder srcW10 = [] :=
  ⟨rfl, (missing_root_scans_empty srcW10 dstW true fsW rfl).1⟩

/-- C4 counterexample: with a nonexistent source root, the claimed
behaviour does not happen.  `run_comparison` performs no existence check:
it returns `Ok` (every destination file in `missing_in_source`), not an
error result, and sends no error `StatusEvent`; the GUI guard in
`start_comparison` aborts before spawning by setting only its local
status string, so nothing is ever emitted on the channel either. -/
theorem root_missing_no_error_cex :
    srcW10.present = false ∧
      ((run_comparison srcW10 dstW true fsW).events.all fun e => !e.isError) = true ∧
      (run_comparison srcW10 dstW true fsW).result =
        Except.ok
          { missing_in_dest := []
            missing_in_source :=
              [{ path := ["d", "b"], rel_path := "b", size := 1, modified := 2, hash := none }]
            different_content := [] } ∧
      start_comparison srcW10 dstW true fsW =
        StartOutcome.aborted ("Error: Paths do not exist") := by
  refine ⟨rfl, ?_, ?_, ?_⟩ <;> rfl

/-- C4 (amended): if either supplied root does not exist, the GUI's
`start_comparison` aborts before scanning with only a local status
message — no error `StatusEvent` on the channel and no error result;
`run_comparison` itself performs no existence check and would return a
normal `Ok` result with no error event. -/
theorem start_comparison_aborts_without_error_event
    (source dst : Root) (b : Bool) (fs : FS)
    (h : source.present = false ∨ dst.present = false) :
    start_comparison source dst b fs =
        StartOutcome.aborted ("Error: Paths do not exist") ∧
      (run_comparison source dst b fs).result =
        Except.ok (resultOf (run_comparison source dst b fs)) ∧
      (∀ e ∈ (run_comparison source dst b fs).events, e.isError = false) := by
  refine ⟨?_, run_comparison_result_ok source dst b fs,
    run_comparison_no_error_event source dst b fs⟩
  rcases h with h | h <;> simp [start_comparison, h]

/-- Witness for the amended C4 at the concrete nonexistent source root. -/
theorem start_comparison_aborts_without_error_event_witness :
    (srcW10.present = false ∨ dstW.present = false) ∧
      start_comparison srcW10 dstW true fsW =
        StartOutcome.aborted ("Error: Paths do not exist") :=
  ⟨Or.inl rfl,
   (start_comparison_aborts_without_error_event srcW10 dstW true fsW (Or.inl rfl)).1⟩

/-- C6 (amended): for every readable file, `calculate_partial_hash`
hashes the first `min(size, 16384)` bytes, followed — exactly when the
file is larger than 32768 bytes — by the last 16384 bytes; files of
32 KiB or smaller are fingerprinted by the single leading read only.
The second read would add no information only for files of at most
16 KiB (whose head read covers the whole content); between 16 KiB and
32 KiB the skipped tail contains bytes outside the head. -/
theorem calculate_partial_hash_spec
    (fs : FS) (p : Path) (d : FileData)
    (h1 : fs p = some d) (h2 : d.partialOk = true) :
    calculate_partial_hash fs p =
        some (d.content.take 16384 ++
          (if d.content.length > 32768 then d.content.drop (d.content.length - 16384)
           else [])) ∧
      (d.content.length ≤ 32768 →
        calculate_partial_hash fs p = some (d.content.take 16384)) ∧
      (d.content.length ≤ 16384 →
        ∀ c2 : List Nat, c2.length = d.content.length →
          c2.take 16384 = d.content.take 16384 → c2 = d.content) := by
  have hmain : calculate_partial_hash fs p = some (partialBytes d.content) := by
    simp [calculate_partial_hash, h1, h2]
  refine ⟨?_, ?_, ?_⟩
  · rw [hmain, partialBytes]
    by_cases hlen : d.content.length > 32768 <;> simp [hlen]
  · intro hle
    rw [hmain, partialBytes]
    have hng : ¬d.content.length > 32768 := by omega
    simp [hng]
  · intro hle c2 hlen htake
    have h3 : c2.take 16384 = c2 := List.take_of_length_le (by omega)
    have h4 : d.content.take 16384 = d.content := List.take_of_length_le hle
    rw [h3, h4] at htake
    exact htake

/-- A readable 20-byte file for the C6 witness. -/
def fsW6 : FS := fun p =>
  if p = ["w6"] then some { content := List.replicate 20 5, partialOk := true, fullOk := true }
  else none

/-- Witness for the amended C6 at a small concrete file. -/
theorem calculate_partial_hash_spec_witness :
    (fsW6 ["w6"] =
        some { content := List.replicate 20 5, partialOk := true, fullOk := true } ∧
        ({ content := List.replicate 20 5, partialOk := true,
           fullOk := true } : FileData).partialOk = true) ∧
      calculate_partial_hash fsW6 ["w6"] = some ((List.replicate 20 5).take 16384) :=
  ⟨⟨by decide, rfl⟩,
   (calculate_partial_hash_spec fsW6 ["w6"]
      { content := List.replicate 20 5, partialOk := true, fullOk := true }
      (by decide) rfl).2.1 (by decide)⟩

/-- Content A of the C6 counterexample: 16 KiB of zeros then 16 KiB of
ones. -/
def cA : List Nat := List.replicate 16384 0 ++ List.replicate 16384 1

/-- Content B of the C6 counterexample: 32 KiB of zeros. -/
def cB : List Nat := List.replicate 32768 0

/-- Filesystem holding the two 32 KiB counterexample files. -/
def fsC : FS := fun p =>
  if p = ["x", "a"] then some { content := cA, partialOk := true, fullOk := true }
  else if p = ["x", "b"] then some { content := cB, partialOk := true, fullOk := true }
  else none

/-- C6 counterexample: two readable files of exactly 32 KiB — "32 KiB or
smaller", so fingerprinted by the single leading read — whose partial
hashes coincide even though their contents and their end-minus-16 KiB
tail regions differ.  A second (tail) read would therefore add
information and would distinguish them, refuting the claim's "the head
and tail regions overlap or coincide, so a second read adds no
information". -/
theorem partial_hash_tail_information_cex :
    cA.length = 32768 ∧ cB.length = 32768 ∧
      calculate_partial_hash fsC ["x", "a"] = some (List.replicate 16384 0) ∧
      calculate_partial_hash fsC ["x", "b"] = some (List.replicate 16384 0) ∧
      cA.drop (32768 - 16384) ≠ cB.drop (32768 - 16384) ∧
      cA ≠ cB := by
  have hlenA : cA.length = 32768 := by
    rw [cA, List.length_append, List.length_replicate, List.length_replicate]
  have hlenB : cB.length = 32768 := by
    rw [cB, List.length_replicate]
  have htakeA : cA.take 16384 = List.replicate 16384 0 := by
    rw [cA]
    exact List.take_left' (by rw [List.length_replicate])
  have htakeB : cB.take 16384 = List.replicate 16384 0 := by
    rw [cB, List.take_replicate]
    congr 1
  have hdropA : cA.drop 16384 = List.replicate 16384 1 := by
    rw [cA]
    exact List.drop_left' (by rw [List.length_replicate])
  have hdropB : cB.drop 16384 = List.replicate 16384 0 := by
    rw [cB, List.drop_replicate]
  have hone : List.replicate 16384 (1 : Nat) ≠ List.replicate 16384 0 := by
    intro h
    have h1 : (1 : Nat) ∈ List.replicate 16384 (1 : Nat) :=
      List.mem_replicate.mpr ⟨by norm_num, rfl⟩
    rw [h] at h1
    exact absurd (List.mem_replicate.mp h1).2 (by norm_num)
  have hpbA : partialBytes cA = List.replicate 16384 0 := by
    rw [partialBytes, hlenA, if_neg (by norm_num)]
    exact htakeA
  have hpbB : partialBytes cB = List.replicate 16384 0 := by
    rw [partialBytes, hlenB, if_neg (by norm_num)]
    exact htakeB
  have hpA : calculate_partial_hash fsC ["x", "a"] = some (List.replicate 16384 0) := by
    have h0 : calculate_partial_hash fsC ["x", "a"] = some (partialBytes cA) := rfl
    rw [h0, hpbA]
  have hpB : calculate_partial_hash fsC ["x", "b"] = some (List.replicate 16384 0) := by
    have h0 : calculate_partial_hash fsC ["x", "b"] = some (partialBytes cB) := rfl
    rw [h0, hpbB]
  have hsub : (32768 : Nat) - 16384 = 16384 := by norm_num
  have hdrops : cA.drop (32768 - 16384) ≠ cB.drop (32768 - 16384) := by
    rw [hsub, hdropA, hdropB]
    exact hone
  refine ⟨hlenA, hlenB, hpA, hpB, hdrops, ?_⟩
  intro h
  rw [h] at hdrops
  exact hdrops rfl

/-- C8: `run_sync` builds exactly one copy task
`(sourcePath, destRoot/relativeKey)` for every `missing_in_dest` entry
and for the source side of every `different_content` pair (the
destination version is overwritten, never merged); it schedules a
removal for every `missing_in_source` path exactly when `delete_extra`
is true; and when `delete_extra` is false no destination-only file is
touched: there are no delete tasks and no copy task writes to the path
of any `missing_in_source` entry. -/
theorem run_sync_task_construction
    (source dst : Root) (b : Bool) (fs : FS) (de_flag : Bool) :
    (run_sync dst.path (resultOf (run_comparison source dst b fs)) de_flag).copy_tasks =
        (resultOf (run_comparison source dst b fs)).missing_in_dest.map
            (fun e => (e.path, dst.path ++ [e.rel_path])) ++
          (resultOf (run_comparison source dst b fs)).different_content.map
            (fun sd => (sd.1.path, dst.path ++ [sd.1.rel_path])) ∧
      (run_sync dst.path (resultOf (run_comparison source dst b fs)) de_flag).delete_tasks =
        (if de_flag then
          (resultOf (run_comparison source dst b fs)).missing_in_source.map FileEntry.path
         else []) ∧
      (de_flag = false →
        (run_sync dst.path (resultOf (run_comparison source dst b fs)) de_flag).delete_tasks
            = [] ∧
          ∀ e ∈ (resultOf (run_comparison source dst b fs)).missing_in_source,
            ∀ t ∈ (run_sync dst.path (resultOf (run_comparison source dst b fs))
                de_flag).copy_tasks,
              t.2 ≠ e.path) := by
  refine ⟨rfl, rfl, ?_⟩
  intro hflag
  subst hflag
  refine ⟨rfl, ?_⟩
  intro e he t ht
  rw [(resultOf_missing_fields source dst b fs).2] at he
  obtain ⟨k, hke, hkn⟩ := mem_missing_in_source.mp he
  have hesh := scan_folder_shape hke
  rcases List.mem_append.mp ht with ht | ht
  · rw [List.mem_map] at ht
    obtain ⟨e2, he2, hte⟩ := ht
    rw [(resultOf_missing_fields source dst b fs).1] at he2
    obtain ⟨k2, hk2, hl2⟩ := mem_missing_in_dest.mp he2
    intro habs
    rw [← hte] at habs
    have habs2 : dst.path ++ [e2.rel_path] = e.path := habs
    have h2 : dst.path ++ [e2.rel_path] = dst.path ++ [k] := by
      rw [habs2, hesh.2.1]
    have hkk : e2.rel_path = k := (snoc_inj h2).2
    rw [(scan_folder_shape hk2).1] at hkk
    rw [hkk] at hl2
    have hsome := lookupKey_isSome_of_mem hke
    rw [hl2] at hsome
    cases hsome
  · rw [List.mem_map] at ht
    obtain ⟨sd, hsd, hte⟩ := ht
    obtain ⟨s0, d0, hs0, hd0, _⟩ := mem_DC_common hsd
    intro habs
    rw [← hte] at habs
    have habs2 : dst.path ++ [sd.1.rel_path] = e.path := habs
    have h2 : dst.path ++ [sd.1.rel_path] = dst.path ++ [k] := by
      rw [habs2, hesh.2.1]
    have hkk : sd.1.rel_path = k := (snoc_inj h2).2
    rw [hkk] at hs0
    have hsome := lookupKey_isSome_of_mem hs0
    rw [hkn] at hsome
    cases hsome

/-- Witness for C8: with `delete_extra` off on the concrete run, no
delete task is built. -/
theorem run_sync_task_construction_witness :
    (false = false) ∧
      (run_sync dstW2.path (resultOf (run_comparison srcW2 dstW2 true fsW))
          false).delete_tasks = [] :=
  ⟨rfl, ((run_sync_task_construction srcW2 dstW2 true fsW false).2.2 rfl).1⟩

end OmniDiff
